import Mathlib

/-!
Verification development for the `ingest-client-go-sdk` Go client library.

The Go sources (client.go, the buffered client, log.go) are shallowly
embedded below: pure functions become Lean functions, the stateful
batching loop becomes an explicit step function over a state record, and
machine integers (`time.Duration`, `int64`) become `Int` with explicit
two's-complement wrapping where overflow could matter.
-/

namespace Ingest

/-- Model of a Go `error` value as it flows through `Collect` /
`doRequestWithContext` / `isCaredError`.  `apiError` is the package's
`Error` struct (StatusCode, Status, Message, Errors); `errno` is a
low-level `syscall.Errno` reachable through `errors.Is`; `other` is any
other error (e.g. from `fmt.Errorf` / `errors.New`). -/
inductive Errno where
  | etimedout
  | econnrefused
  | otherErrno (n : Nat)
deriving DecidableEq, Repr

structure SubError where
  key : String
  error : String
deriving DecidableEq, Repr

inductive GoError where
  | apiError (statusCode : Int) (status : String) (message : String)
      (errors : List SubError)
  | errno (e : Errno)
  | other (msg : String)
deriving DecidableEq, Repr

/-- `net/http` status constants used by `isCaredError`. -/
def statusTooManyRequests : Int := 429
def statusRequestTimeout : Int := 408
def statusBadGateway : Int := 502
def statusServiceUnavailable : Int := 503
def statusGatewayTimeout : Int := 504

/-- Embedding of `isCaredError` (client.go lines 259-277): the retry
classifier.  `errors.As(err, &Error)` succeeds exactly on `apiError`;
`errors.Is(err, syscall.ETIMEDOUT/ECONNREFUSED)` succeeds exactly on the
corresponding `errno`. -/
def isCaredError : GoError → Bool
  | .apiError sc _ _ _ =>
    if sc = statusTooManyRequests ∨ sc = statusRequestTimeout then true
    else if sc = statusBadGateway ∨ sc = statusServiceUnavailable ∨
        sc = statusGatewayTimeout then true
    else false
  | .errno .etimedout => true
  | .errno .econnrefused => true
  | .errno (.otherErrno _) => false
  | .other _ => false

/-! ## Durations and the backoff interval update

`time.Duration` is an `int64` count of nanoseconds.  We model it as `Int`
wrapped to 64 bits where an overflow could occur (the `timeInterval * 2`
in `Collect`). -/

def millisecond : Int := 1000000
def second : Int := 1000000000

/-- Two's-complement wrap of an `int64` arithmetic result. -/
def wrap64 (x : Int) : Int := (x + 2 ^ 63) % 2 ^ 64 - 2 ^ 63

/-- One pass of the backoff update in `Collect` (client.go lines 146-149):
`timeInterval = timeInterval * 2; if timeInterval >= timeIntervalMax {
timeInterval = timeIntervalMax }`.  The returned value is the interval
passed to `time.After` for this wait. -/
def nextInterval (timeIntervalMax t : Int) : Int :=
  let t2 := wrap64 (t * 2)
  if timeIntervalMax ≤ t2 then timeIntervalMax else t2

/-- The interval waited before the k-th retry (k = 0, 1, ...) of one
`Collect` call whose retryable failures keep coming: `timeInterval`
starts at `RetryTimeIntervalInitial` and is updated by `nextInterval`
before each wait. -/
def waitSeq (initial timeIntervalMax : Int) : Nat → Int
  | 0 => nextInterval timeIntervalMax initial
  | k + 1 => nextInterval timeIntervalMax (waitSeq initial timeIntervalMax k)

/-! ## The `Collect` retry loop

The environment of one `Collect` call is: the outcome of serialization,
the outcome of compression, the (deterministic) outcome of
`http.NewRequest`, and one outcome per executed send attempt.  An
attempt outcome is either success (`result = none`) or an error,
together with whether the caller's context fired before the subsequent
backoff wait completed (the `select` on `time.After` vs `ctx.Done()`). -/

structure Attempt where
  result : Option GoError
  ctxDoneDuringWait : Bool
deriving DecidableEq, Repr

inductive CollectResult where
  | ok
  | err (e : GoError)
  | ctxErr
  | envExhausted
deriving DecidableEq, Repr

structure CollectTrace where
  result : CollectResult
  sendAttempts : Nat
  /-- intervals handed to `time.After`, in order -/
  waits : List Int
deriving DecidableEq, Repr

/-- The body of the `retry:` loop of `Collect` (client.go lines 144-160)
run over the list of send-attempt outcomes, threading the mutable
`timeInterval`.  An attempt that fails with a cared (retryable) error
first updates the interval, then the `select`: either `time.After`
completes (loop to the next attempt) or `ctx.Done()` fires first
(return `ctx.Err()`).  A non-cared error is returned at once.  When the
supplied attempt list runs out the trace ends in `envExhausted`. -/
def collectAttempts (timeIntervalMax : Int) : Int → List Attempt → CollectTrace
  | _, [] => ⟨.envExhausted, 0, []⟩
  | t, a :: rest =>
    match a.result with
    | none => ⟨.ok, 1, []⟩
    | some e =>
      if isCaredError e then
        let t2 := nextInterval timeIntervalMax t
        if a.ctxDoneDuringWait then ⟨.ctxErr, 1, [t2]⟩
        else
          let tr := collectAttempts timeIntervalMax t2 rest
          ⟨tr.result, tr.sendAttempts + 1, t2 :: tr.waits⟩
      else ⟨.err e, 1, []⟩

/-- The `retry:` loop with the `http.NewRequest` step at its head
(client.go lines 126-129).  `reqErr` is `http.NewRequest`'s outcome;
it is deterministic in the fixed method and URL, so a failure surfaces
at the first iteration, before any send attempt. -/
def collectLoop (timeIntervalMax : Int) (reqErr : Option GoError)
    (t : Int) (attempts : List Attempt) : CollectTrace :=
  match reqErr with
  | some e => ⟨.err e, 0, []⟩
  | none => collectAttempts timeIntervalMax t attempts

/-- `Client.Collect` (client.go lines 106-163): serialize, optionally
compress, then enter the retry loop with
`timeInterval = RetryTimeIntervalInitial`.  `encResult` and
`compressResult` are the outcomes of the pluggable encode/compress
steps (their bytes are irrelevant to control flow). -/
def collect (encResult : Except GoError (List Nat)) (noCompression : Bool)
    (compressResult : Except GoError (List Nat))
    (initial timeIntervalMax : Int) (reqErr : Option GoError)
    (attempts : List Attempt) : CollectTrace :=
  match encResult with
  | .error e => ⟨.err e, 0, []⟩
  | .ok _ =>
    if noCompression then collectLoop timeIntervalMax reqErr initial attempts
    else
      match compressResult with
      | .error e => ⟨.err e, 0, []⟩
      | .ok _ => collectLoop timeIntervalMax reqErr initial attempts

/-! ## Batch identifiers

`batchingLoop`'s `newBatch` closure builds
`fmt.Sprintf("b-%d-%d", time.Now().UnixMilli(), bc.nextBatchID)` and
then increments the counter.  `%d` of a non-negative `int64` is its
decimal digits; both `UnixMilli` (for any date after 1970) and the
counter (starts at 0, only incremented) are non-negative, so we model
them as `Nat`. -/

def digitChar (d : Nat) : Char := Char.ofNat (48 + d)

/-- Decimal digit list of a `Nat` (the `%d` verb), with structural
fuel so that it reduces inside the kernel; any `fuel > n` computes the
digits of `n`. -/
def natDigits (fuel n : Nat) : List Char :=
  match fuel with
  | 0 => []
  | fuel + 1 =>
    if n < 10 then [digitChar n]
    else natDigits fuel (n / 10) ++ [digitChar (n % 10)]

def natDec (n : Nat) : String := ⟨natDigits (n + 1) n⟩

/-- `newBatch`'s identifier (client.go line 410). -/
def newBatchId (nowMilli counter : Nat) : String :=
  "b-" ++ natDec nowMilli ++ "-" ++ natDec counter

/-! ## The batching loop

`BufferedClient.batchingLoop` (client.go lines 403-443) is a
single-threaded loop selecting over three channels: an incoming
message, the one-shot age timer, and the close signal.  We embed it as
a step function over an explicit state.  `timerArmed` models Go's
`time.Timer`: `time.NewTimer` arms it, a receive from `timer.C`
disarms it, and only `timer.Reset` re-arms it — the source calls
`Reset` solely in the size-triggered seal branch.  `created` is a
ghost trace of the `(UnixMilli, counter)` pairs passed to `newBatch`,
in creation order; the Go code does not store it, it only exists so
that properties of all issued batch ids can be stated. -/

structure Messages (M : Type) where
  batchId : String
  messages : List M
deriving DecidableEq, Repr

structure BatchState (M : Type) where
  batch : Messages M
  nextBatchID : Nat
  timerArmed : Bool
  /-- sealed batches handed to `outBatches`, in handoff order -/
  out : List (Messages M)
  /-- `true` once the loop has `return`ed (close received) -/
  done : Bool
  /-- ghost: arguments of every `newBatch` call, in order -/
  created : List (Nat × Nat)
deriving DecidableEq, Repr

/-- An event the loop's `select` can wake up on.  `nowMilli` is the
wall clock reading any `newBatch` performed while handling the event
would observe.  A `timerFire` event can only be produced by an armed
timer; on a disarmed timer it is a no-op (the channel never yields). -/
inductive BatchEvent (M : Type) where
  | msg (m : M) (nowMilli : Nat)
  | timerFire (nowMilli : Nat)
  | close
deriving DecidableEq, Repr

def mkBatch {M : Type} (nowMilli counter : Nat) : Messages M :=
  { batchId := newBatchId nowMilli counter, messages := [] }

/-- Initial state of `batchingLoop`: the timer is armed by
`time.NewTimer`, and `b := newBatch()` runs once with counter 0 at
wall-clock `t0`. -/
def initBatchState (M : Type) (t0 : Nat) : BatchState M :=
  { batch := mkBatch t0 0, nextBatchID := 1, timerArmed := true,
    out := [], done := false, created := [(t0, 0)] }

/-- One iteration of `batchingLoop`'s `for { select { ... } }`,
with `maxMessagesPerBatch = K`.  Go's `int` comparison
`len(b.Messages) >= K` coincides with `K ≤ length` for every `K ≥ 0`,
and for `K ≤ 0` both seal on every message, so `K : Nat` is faithful. -/
def batchStep {M : Type} (K : Nat) (s : BatchState M) (e : BatchEvent M) :
    BatchState M :=
  if s.done then s
  else
    match e with
    | .msg m now =>
      let b := { s.batch with messages := s.batch.messages ++ [m] }
      if K ≤ b.messages.length then
        -- seal for size; `timer.Reset` re-arms the timer here
        { batch := mkBatch now s.nextBatchID, nextBatchID := s.nextBatchID + 1,
          timerArmed := true, out := s.out ++ [b], done := false,
          created := s.created ++ [(now, s.nextBatchID)] }
      else { s with batch := b }
    | .timerFire now =>
      if s.timerArmed then
        if 0 < s.batch.messages.length then
          -- seal for age; the source has no `timer.Reset` in this branch,
          -- so the one-shot timer stays disarmed
          { batch := mkBatch now s.nextBatchID, nextBatchID := s.nextBatchID + 1,
            timerArmed := false, out := s.out ++ [s.batch], done := false,
            created := s.created ++ [(now, s.nextBatchID)] }
        else { s with timerArmed := false }
      else s
    | .close =>
      if 0 < s.batch.messages.length then
        { s with out := s.out ++ [s.batch], done := true }
      else { s with done := true }

/-- Run the loop over a sequence of events. -/
def batchRun {M : Type} (K : Nat) (s : BatchState M)
    (events : List (BatchEvent M)) : BatchState M :=
  events.foldl (batchStep K) s

/-! ## Configuration and construction

`Config` / `BufferedClientConfig` and the constructors `NewClient`
(client.go lines 73-104) and `NewBufferedClient` (lines 324-371).  A Go
interface value that may be `nil` (the `Logger`) is an `Option`; the
concrete logger only matters up to identity here. -/

inductive LoggerM where
  | defaultLogger
  | custom (id : Nat)
deriving DecidableEq, Repr

structure Config where
  endpoint : String
  accessKeyID : String
  accessKeySecret : String
  clientId : String
  encoding : String
  noCompression : Bool
  compressionAlgo : String
  retryTimeIntervalInitial : Int
  retryTimeIntervalMax : Int
  logger : Option LoggerM
deriving DecidableEq, Repr

structure BufferedClientConfig where
  endpoint : String
  accessKeyID : String
  accessKeySecret : String
  clientId : String
  encoding : String
  noCompression : Bool
  compressionAlgo : String
  retryTimeIntervalInitial : Int
  retryTimeIntervalMax : Int
  maxMessagesPerBatch : Int
  maxDurationPerBatch : Int
  maxConcurrency : Int
  logger : Option LoggerM
deriving DecidableEq, Repr

/-- the `switch config.Encoding` statement (client.go lines 87-93) -/
def encodingSwitch (config : Config) : Except GoError Config :=
  if config.encoding = "json" ∨ config.encoding = "msgpack" then .ok config
  else if config.encoding = "" then .ok { config with encoding := "json" }
  else .error (.other ("unkonwn encoding " ++ config.encoding))

/-- the `switch config.CompressionAlgo` statement (client.go lines 95-101) -/
def compressionSwitch (config : Config) : Except GoError Config :=
  if config.compressionAlgo = "gzip" then .ok config
  else if config.compressionAlgo = "" then
    .ok { config with compressionAlgo := "gzip" }
  else .error (.other ("unkonwn compressionAlgo " ++ config.compressionAlgo))

/-- `NewClient` (client.go lines 73-104); the result is the `conf`
field of the returned `*Client`. -/
def NewClient (config : Config) : Except GoError Config :=
  if config.endpoint = "" then .error (.other "endpoint is required")
  else
    let config := if config.logger = none then
        { config with logger := some .defaultLogger } else config
    let config := if config.retryTimeIntervalInitial = 0 then
        { config with retryTimeIntervalInitial := 100 * millisecond } else config
    let config := if config.retryTimeIntervalMax = 0 then
        { config with retryTimeIntervalMax := 5 * second } else config
    match encodingSwitch config with
    | .error e => .error e
    | .ok config =>
      match compressionSwitch config with
      | .error e => .error e
      | .ok config => .ok config

/-- The `clientConfig` literal built inside `NewBufferedClient`
(client.go lines 325-336). -/
def toClientConfig (c : BufferedClientConfig) : Config :=
  { endpoint := c.endpoint, accessKeyID := c.accessKeyID,
    accessKeySecret := c.accessKeySecret, clientId := c.clientId,
    encoding := c.encoding, noCompression := c.noCompression,
    compressionAlgo := c.compressionAlgo,
    retryTimeIntervalInitial := c.retryTimeIntervalInitial,
    retryTimeIntervalMax := c.retryTimeIntervalMax, logger := c.logger }

/-- `NewBufferedClient` (client.go lines 324-371); the result is the
pair of the returned client's own `conf` (a `BufferedClientConfig`)
and its embedded `*Client`'s `conf`.  Note that the zero-value
defaults applied inside `NewClient` act on the copied `clientConfig`
only, never on the outer `config`. -/
def NewBufferedClient (config : BufferedClientConfig) :
    Except GoError (BufferedClientConfig × Config) :=
  match NewClient (toClientConfig config) with
  | .error e => .error e
  | .ok clientConf =>
    let config := if config.maxMessagesPerBatch = 0 then
        { config with maxMessagesPerBatch := 2000 } else config
    let config := if config.maxDurationPerBatch = 0 then
        { config with maxDurationPerBatch := 50 * millisecond } else config
    let config := if config.maxConcurrency = 0 then
        { config with maxConcurrency := 10 } else config
    .ok (config, clientConf)

/-- The `encoding` helper (client.go lines 179-196).  The marshaller
outcomes are inputs: `fastjson.Marshal v` and `msgpack.Marshal v` are
external collaborators, so the function is embedded as the selection
it performs between them. -/
def encodingFn (enc : String) (jsonResult msgpackResult : Except GoError (List Nat)) :
    Except GoError (List Nat) :=
  if enc = "json" then
    match jsonResult with
    | .error e => .error e
    | .ok data => .ok data
  else if enc = "msgpack" then
    match msgpackResult with
    | .error e => .error e
    | .ok data => .ok data
  else .error (.other "unsupported compression format")

/-! ## Response handling

The status check and error construction at the end of
`doRequestWithContext` (client.go lines 226-239).  `json.Unmarshal` of
the response body into `Error` is an external collaborator, so a body
is embedded by whether it parses as the `{error, errors}` structure
and what it yields. -/

inductive HttpBody where
  /-- `json.Unmarshal` succeeds, yielding these `Message`/`Errors` fields -/
  | parsable (message : String) (errs : List SubError)
  /-- `json.Unmarshal` fails; `raw` is the body text -/
  | unparsable (raw : String)
deriving DecidableEq, Repr

/-- Outcome of one HTTP exchange as classified by
`doRequestWithContext`: `none` on status 200, otherwise the `Error`
value it returns. -/
def handleResponse (statusCode : Int) (status : String) (body : HttpBody) :
    Option GoError :=
  if statusCode ≠ 200 then
    some (match body with
      | .parsable m errs => .apiError statusCode status m errs
      | .unparsable raw => .apiError statusCode status raw [])
  else none

/-! ## Request signing

`calculateSignature` (client.go lines 242-253) computes an HMAC-SHA256
over an incremental `hash.Hash`; incremental `Write`s are by
definition the MAC of the concatenation of the written chunks.  The
primitives (`crypto/sha256`, `crypto/hmac`, `encoding/base64`) are
implemented below over byte lists (each byte a `Nat < 256`), with
32-bit words as `Nat` reduced `% 2^32`. -/

def M32 : Nat := 2 ^ 32

def rotr (n x : Nat) : Nat := ((x >>> n) ||| (x <<< (32 - n))) % M32

def bigSigma0 (x : Nat) : Nat := rotr 2 x ^^^ rotr 13 x ^^^ rotr 22 x
def bigSigma1 (x : Nat) : Nat := rotr 6 x ^^^ rotr 11 x ^^^ rotr 25 x
def smallSigma0 (x : Nat) : Nat := rotr 7 x ^^^ rotr 18 x ^^^ (x >>> 3)
def smallSigma1 (x : Nat) : Nat := rotr 17 x ^^^ rotr 19 x ^^^ (x >>> 10)

def chFn (x y z : Nat) : Nat := (x &&& y) ^^^ ((x ^^^ (M32 - 1)) &&& z)
def majFn (x y z : Nat) : Nat := (x &&& y) ^^^ (x &&& z) ^^^ (y &&& z)

/-- The 64 SHA-256 round constants of FIPS 180-4, written in decimal. -/
def shaK : List Nat :=
  [1116352408, 1899447441, 3049323471, 3921009573, 961987163,
   1508970993, 2453635748, 2870763221, 3624381080, 310598401,
   607225278, 1426881987, 1925078388, 2162078206, 2614888103,
   3248222580, 3835390401, 4022224774, 264347078, 604807628,
   770255983, 1249150122, 1555081692, 1996064986, 2554220882,
   2821834349, 2952996808, 3210313671, 3336571891, 3584528711,
   113926993, 338241895, 666307205, 773529912, 1294757372,
   1396182291, 1695183700, 1986661051, 2177026350, 2456956037,
   2730485921, 2820302411, 3259730800, 3345764771, 3516065817,
   3600352804, 4094571909, 275423344, 430227734, 506948616,
   659060556, 883997877, 958139571, 1322822218, 1537002063,
   1747873779, 1955562222, 2024104815, 2227730452, 2361852424,
   2428436474, 2756734187, 3204031479, 3329325298]

structure H8 where
  a : Nat
  b : Nat
  c : Nat
  d : Nat
  e : Nat
  f : Nat
  g : Nat
  h : Nat
deriving DecidableEq, Repr

/-- The eight SHA-256 initial hash values of FIPS 180-4, in decimal. -/
def shaInit : H8 :=
  ⟨1779033703, 3144134277, 1013904242, 2773480762,
   1359893119, 2600822924, 528734635, 1541459225⟩

/-- big-endian 8-byte encoding -/
def be64 (n : Nat) : List Nat :=
  [n >>> 56 % 256, n >>> 48 % 256, n >>> 40 % 256, n >>> 32 % 256,
   n >>> 24 % 256, n >>> 16 % 256, n >>> 8 % 256, n % 256]

/-- big-endian 4-byte encoding -/
def be32 (n : Nat) : List Nat :=
  [n >>> 24 % 256, n >>> 16 % 256, n >>> 8 % 256, n % 256]

/-- SHA-256 padding: append 0x80, zero bytes, then the 64-bit
big-endian bit length, to a multiple of 64 bytes. -/
def shaPad (msg : List Nat) : List Nat :=
  let z := (64 - (msg.length + 9) % 64) % 64
  msg ++ [0x80] ++ List.replicate z 0 ++ be64 (8 * msg.length)

/-- split into 64-byte blocks -/
def chunks64 : List Nat → List (List Nat)
  | [] => []
  | x :: xs => (x :: xs).take 64 :: chunks64 ((x :: xs).drop 64)
  termination_by l => l.length
  decreasing_by simp [List.length_drop]; omega

/-- 4 bytes at a time into big-endian 32-bit words -/
def toWords : List Nat → List Nat
  | b0 :: b1 :: b2 :: b3 :: rest =>
    (((b0 * 256 + b1) * 256 + b2) * 256 + b3) :: toWords rest
  | _ => []

/-- extend 16 words to the 64-entry message schedule -/
def shaExtend (w : List Nat) : List Nat :=
  (List.range 48).foldl
    (fun w i =>
      w ++ [(smallSigma1 (w.getD (i + 14) 0) + w.getD (i + 9) 0 +
        smallSigma0 (w.getD (i + 1) 0) + w.getD i 0) % M32])
    w

def shaRound (w : List Nat) (s : H8) (i : Nat) : H8 :=
  let t1 := (s.h + bigSigma1 s.e + chFn s.e s.f s.g +
    shaK.getD i 0 + w.getD i 0) % M32
  let t2 := (bigSigma0 s.a + majFn s.a s.b s.c) % M32
  ⟨(t1 + t2) % M32, s.a, s.b, s.c, (s.d + t1) % M32, s.e, s.f, s.g⟩

def shaCompress (H : H8) (block : List Nat) : H8 :=
  let w := shaExtend (toWords block)
  let s := (List.range 64).foldl (shaRound w) H
  ⟨(H.a + s.a) % M32, (H.b + s.b) % M32, (H.c + s.c) % M32,
   (H.d + s.d) % M32, (H.e + s.e) % M32, (H.f + s.f) % M32,
   (H.g + s.g) % M32, (H.h + s.h) % M32⟩

def sha256 (msg : List Nat) : List Nat :=
  let H := (chunks64 (shaPad msg)).foldl shaCompress shaInit
  (([H.a, H.b, H.c, H.d, H.e, H.f, H.g, H.h]).map be32).flatten

/-- `crypto/hmac` with SHA-256 (block size 64). -/
def hmacSha256 (key msg : List Nat) : List Nat :=
  let key := if 64 < key.length then sha256 key else key
  let key := key ++ List.replicate (64 - key.length) 0
  sha256 ((key.map (fun b => b ^^^ 0x5c)) ++
    sha256 ((key.map (fun b => b ^^^ 0x36)) ++ msg))

/-- `encoding/base64` standard alphabet -/
def base64Chars : List Char :=
  "ABCDEFGHIJKLMNOPQRSTUVWXYZabcdefghijklmnopqrstuvwxyz0123456789+/".toList

def b64c (n : Nat) : Char := base64Chars.getD n 'A'

/-- `base64.StdEncoding.EncodeToString` over byte lists -/
def base64Chunks : List Nat → List Char
  | b0 :: b1 :: b2 :: rest =>
    let n := (b0 * 256 + b1) * 256 + b2
    b64c (n >>> 18 % 64) :: b64c (n >>> 12 % 64) :: b64c (n >>> 6 % 64) ::
      b64c (n % 64) :: base64Chunks rest
  | [b0, b1] =>
    let n := (b0 * 256 + b1) * 256
    [b64c (n >>> 18 % 64), b64c (n >>> 12 % 64), b64c (n >>> 6 % 64), '=']
  | [b0] =>
    let n := b0 * 256 * 256
    [b64c (n >>> 18 % 64), b64c (n >>> 12 % 64), '=', '=']
  | [] => []

def base64Encode (bs : List Nat) : String := ⟨base64Chunks bs⟩

/-- UTF-8 bytes of a Go string -/
def strBytes (s : String) : List Nat := s.toUTF8.toList.map UInt8.toNat

/-- `calculateSignature` (client.go lines 242-253), with the source's
parameter order; the body performs `h.Write` of method, url,
accessKeyId, **nonce**, **timestamp**, body in that sequence. -/
def calculateSignature (method url accessKeyId timestamp nonce
    accessKeySecret : String) (body : List Nat) : List Nat :=
  hmacSha256 (strBytes accessKeySecret)
    (strBytes method ++ strBytes url ++ strBytes accessKeyId ++
     strBytes nonce ++ strBytes timestamp ++ body)

def collectMethod : String := "POST"
def collectApi : String := "/v1/collect"

/-- The headers `doRequestWithContext` (client.go lines 198-210) sets
on the outgoing request, given the timestamp and nonce it drew. -/
def doRequestHeaders (conf : Config) (method api timestamp nonce : String)
    (data : List Nat) : List (String × String) :=
  [("X-AccessKeyId", conf.accessKeyID),
   ("X-Timestamp", timestamp),
   ("X-Nonce", nonce),
   ("X-Signature", base64Encode (calculateSignature method api
      conf.accessKeyID timestamp nonce conf.accessKeySecret data)),
   ("User-Agent", "turbine-ingest-client/unknown")]

/-! ## Specification-side helper definitions -/

/-- The condition under which `Collect` loops back to `retry:` after an
attempt: the attempt failed with a cared (retryable) error and the
caller's context did not fire during the backoff wait. -/
def retryAfter (a : Attempt) : Bool :=
  match a.result with
  | some e => isCaredError e && !a.ctxDoneDuringWait
  | none => false

/-- Length of the leading run of attempt outcomes each of which
triggers a retry. -/
def leadRetries : List Attempt → Nat
  | [] => 0
  | a :: rest => if retryAfter a then leadRetries rest + 1 else 0

/-- Refinement-side description of the per-field zero-value defaulting
`NewClient` performs on the five optional client options. -/
def applyClientDefaults (c : Config) : Config :=
  { c with
    logger := if c.logger = none then some .defaultLogger else c.logger,
    retryTimeIntervalInitial := if c.retryTimeIntervalInitial = 0 then
      100 * millisecond else c.retryTimeIntervalInitial,
    retryTimeIntervalMax := if c.retryTimeIntervalMax = 0 then
      5 * second else c.retryTimeIntervalMax,
    encoding := if c.encoding = "" then "json" else c.encoding,
    compressionAlgo := if c.compressionAlgo = "" then "gzip" else c.compressionAlgo }

/-- Refinement-side description of the three batching defaults
`NewBufferedClient` applies to its own configuration. -/
def applyBatchDefaults (c : BufferedClientConfig) : BufferedClientConfig :=
  { c with
    maxMessagesPerBatch := if c.maxMessagesPerBatch = 0 then 2000
      else c.maxMessagesPerBatch,
    maxDurationPerBatch := if c.maxDurationPerBatch = 0 then 50 * millisecond
      else c.maxDurationPerBatch,
    maxConcurrency := if c.maxConcurrency = 0 then 10 else c.maxConcurrency }

/-- Decimal parser, a left inverse of `natDec` used to prove batch-id
injectivity. -/
def parseDec (cs : List Char) : Nat :=
  cs.foldl (fun acc c => acc * 10 + (c.toNat - 48)) 0

/-- A concrete `BufferedClientConfig` whose optional fields are all at
their Go zero values. -/
def cfg0 : BufferedClientConfig :=
  { endpoint := "e", accessKeyID := "", accessKeySecret := "",
    clientId := "", encoding := "", noCompression := false,
    compressionAlgo := "", retryTimeIntervalInitial := 0,
    retryTimeIntervalMax := 0, maxMessagesPerBatch := 0,
    maxDurationPerBatch := 0, maxConcurrency := 0, logger := none }

/-! # Theorems -/

theorem encodingSwitch_ok {c c' : Config} (h : encodingSwitch c = .ok c') :
    c' = { c with encoding := if c.encoding = "" then "json" else c.encoding } ∧
    (c'.encoding = "json" ∨ c'.encoding = "msgpack") := by
  obtain ⟨ep, ak, sk, ci, enc, nc, ca, ri, rm, lg⟩ := c
  unfold encodingSwitch at h
  split_ifs at h with h1 h2 <;> cases h
  · rcases h1 with h1 | h1 <;> simp_all
  · simp_all

theorem compressionSwitch_ok {c c' : Config} (h : compressionSwitch c = .ok c') :
    c' = { c with compressionAlgo := if c.compressionAlgo = "" then "gzip"
      else c.compressionAlgo } ∧ c'.compressionAlgo = "gzip" := by
  obtain ⟨ep, ak, sk, ci, enc, nc, ca, ri, rm, lg⟩ := c
  unfold compressionSwitch at h
  split_ifs at h with h1 h2 <;> cases h <;> simp_all

theorem NewClient_ok {c c' : Config} (h : NewClient c = .ok c') :
    c' = applyClientDefaults c ∧
    (c'.encoding = "json" ∨ c'.encoding = "msgpack") ∧
    c'.compressionAlgo = "gzip" := by
  unfold NewClient at h
  split at h
  · cases h
  · dsimp only at h
    split at h
    · cases h
    · rename_i mid heq1
      split at h
      · cases h
      · rename_i fin heq2
        cases h
        obtain ⟨rfl, hv⟩ := encodingSwitch_ok heq1
        obtain ⟨rfl, hv2⟩ := compressionSwitch_ok heq2
        refine ⟨?_, ?_, hv2⟩
        · obtain ⟨ep, ak, sk, ci, enc, nc, ca, ri, rm, lg⟩ := c
          simp only [applyClientDefaults]
          split_ifs <;> simp_all
        · simpa using hv

theorem NewBufferedClient_ok {b bc : BufferedClientConfig} {cc : Config}
    (h : NewBufferedClient b = .ok (bc, cc)) :
    bc = applyBatchDefaults b ∧ cc = applyClientDefaults (toClientConfig b) := by
  unfold NewBufferedClient at h
  split at h
  · cases h
  · rename_i clientConf heq
    dsimp only at h
    cases h
    refine ⟨?_, (NewClient_ok heq).1⟩
    obtain ⟨ep, ak, sk, ci, enc, nc, ca, ri, rm, mm, md, mc, lg⟩ := b
    simp only [applyBatchDefaults]
    split_ifs <;> simp_all

theorem wrap64_id {x : Int} (h1 : -(2 ^ 63) ≤ x) (h2 : x < 2 ^ 63) :
    wrap64 x = x := by
  unfold wrap64
  rw [Int.emod_eq_of_lt (by omega) (by omega)]
  omega

theorem nextInterval_min {tmax t : Int} (h1 : -(2 ^ 62) ≤ t) (h2 : t < 2 ^ 62) :
    nextInterval tmax t = min (2 * t) tmax := by
  unfold nextInterval
  rw [wrap64_id (by omega) (by omega)]
  dsimp only
  split <;> omega

theorem waitSeq_min (initial tmax : Int) (hi : 0 < initial)
    (hi2 : initial < 2 ^ 62) (hm : 0 < tmax) (hm2 : tmax < 2 ^ 62) (k : Nat) :
    waitSeq initial tmax k = min (initial * 2 ^ (k + 1)) tmax := by
  induction k with
  | zero =>
    unfold waitSeq
    rw [nextInterval_min (by omega) (by omega)]
    have h : initial * 2 ^ (0 + 1) = 2 * initial := by ring
    rw [h]
  | succ k ih =>
    have h2k : (0:Int) < initial * 2 ^ (k + 1) := by positivity
    unfold waitSeq
    rw [ih, nextInterval_min (by omega) (by omega)]
    have h : initial * 2 ^ (k + 1 + 1) = 2 * (initial * 2 ^ (k + 1)) := by ring
    rw [h]
    omega

theorem waitSeq_shift (initial tmax : Int) (k : Nat) :
    waitSeq initial tmax (k + 1) = waitSeq (nextInterval tmax initial) tmax k := by
  induction k with
  | zero => rfl
  | succ k ih =>
    simp only [waitSeq]
    rw [← ih]
    simp only [waitSeq]

theorem collectAttempts_waits (tmax : Int) (as : List Attempt) :
    ∀ (t : Int) (k : Nat) (w : Int),
      ((collectAttempts tmax t as).waits)[k]? = some w → w = waitSeq t tmax k := by
  induction as with
  | nil =>
    intro t k w h
    simp [collectAttempts] at h
  | cons a rest ih =>
    intro t k w h
    obtain ⟨res, cd⟩ := a
    cases res with
    | none => simp [collectAttempts] at h
    | some e =>
      by_cases hc : isCaredError e
      · cases cd
        · simp only [collectAttempts, hc, if_true, Bool.false_eq_true,
            if_false] at h
          cases k with
          | zero =>
            simp at h
            rw [← h]
            rfl
          | succ k =>
            simp at h
            rw [waitSeq_shift]
            exact ih (nextInterval tmax t) k w h
        · simp only [collectAttempts, hc, if_true] at h
          cases k with
          | zero =>
            simp at h
            rw [← h]
            rfl
          | succ k => simp at h
      · simp [collectAttempts, hc] at h

theorem collectAttempts_sendAttempts (tmax : Int) (as : List Attempt) :
    ∀ t : Int, (collectAttempts tmax t as).sendAttempts =
      min (leadRetries as + 1) as.length := by
  induction as with
  | nil =>
    intro t
    simp [collectAttempts, leadRetries]
  | cons a rest ih =>
    intro t
    obtain ⟨res, cd⟩ := a
    cases res with
    | none =>
      simp [collectAttempts, leadRetries, retryAfter]
    | some e =>
      by_cases hc : isCaredError e
      · cases cd
        · simp only [collectAttempts, hc, if_true, Bool.false_eq_true, if_false]
          simp only [leadRetries, retryAfter, hc, Bool.not_false, Bool.and_self,
            if_true]
          rw [ih (nextInterval tmax t)]
          simp only [List.length_cons]
          omega
        · simp only [collectAttempts, hc, if_true]
          simp only [leadRetries, retryAfter, hc, Bool.not_true, Bool.and_false,
            Bool.false_eq_true, if_false, List.length_cons]
          omega
      · simp only [collectAttempts, hc, Bool.false_eq_true, if_false]
        have hr : retryAfter ⟨some e, cd⟩ = false := by
          simp [retryAfter, hc]
        simp only [leadRetries, hr, Bool.false_eq_true, if_false,
          List.length_cons]
        omega

/-- C1 counterexample: the claim says the first backoff wait inside a
`Collect` call equals `RetryTimeIntervalInitial` (the formula
`min(initial * 2^k, max)` at `k = 0`), but the code doubles
`timeInterval` before the first wait, so a run with one retryable
failure waits `200ms`, not `100ms`. -/
theorem c1_first_wait_counterexample :
    (collect (.ok []) false (.ok []) (100 * millisecond) (5 * second) none
      [⟨some (.apiError 503 "503 Service Unavailable" "" []), false⟩,
       ⟨none, false⟩]).waits = [200 * millisecond] ∧
    (200 * millisecond : Int) ≠ min ((100 * millisecond) * 2 ^ 0) (5 * second) := by
  refine ⟨rfl, ?_⟩
  decide

/-- C1 (amended): inside one `Collect` call, the k-th backoff wait
(k = 0, 1, 2, ...) equals `min(RetryTimeIntervalInitial * 2^(k+1),
RetryTimeIntervalMax)` — the interval is doubled before each wait,
including the first, so the first wait is `min(2*initial, max)` rather
than `initial`; the wait sequence is monotonically non-decreasing and
never exceeds `RetryTimeIntervalMax`.  (Bounds keep the `int64`
doubling below overflow.) -/
theorem c1_backoff_formula_amended (initial tmax : Int) (k : Nat)
    (hi : 0 < initial) (hi2 : initial < 2 ^ 62)
    (hm : 0 < tmax) (hm2 : tmax < 2 ^ 62) :
    waitSeq initial tmax k = min (initial * 2 ^ (k + 1)) tmax ∧
    waitSeq initial tmax k ≤ waitSeq initial tmax (k + 1) ∧
    waitSeq initial tmax k ≤ tmax ∧
    ∀ (reqErr : Option GoError) (attempts : List Attempt) (w : Int),
      ((collectLoop tmax reqErr initial attempts).waits)[k]? = some w →
      w = min (initial * 2 ^ (k + 1)) tmax := by
  have h1 := waitSeq_min initial tmax hi hi2 hm hm2 k
  have h2 := waitSeq_min initial tmax hi hi2 hm hm2 (k + 1)
  have hpos : (0:Int) < initial * 2 ^ (k + 1) := by positivity
  have hmono : initial * 2 ^ (k + 1) ≤ initial * 2 ^ (k + 1 + 1) := by
    have h3 : initial * 2 ^ (k + 1 + 1) = 2 * (initial * 2 ^ (k + 1)) := by ring
    omega
  refine ⟨h1, by rw [h1, h2]; omega, by rw [h1]; omega, ?_⟩
  intro reqErr attempts w hw
  cases reqErr with
  | some e => simp [collectLoop] at hw
  | none =>
    have hwz := collectAttempts_waits tmax attempts initial k w
      (by simpa [collectLoop] using hw)
    rw [hwz]
    exact h1

/-- C1 witness: the amended backoff formula evaluated at
`initial = 100`, `max = 5000`, `k = 6` (duration units are
irrelevant), including the in-loop wait list. -/
theorem c1_backoff_formula_amended_witness :
    waitSeq 100 5000 6 = min (100 * 2 ^ (6 + 1)) 5000 ∧
    waitSeq 100 5000 6 ≤ waitSeq 100 5000 (6 + 1) ∧
    waitSeq 100 5000 6 ≤ 5000 ∧
    (5000 : Int) = min (100 * 2 ^ (6 + 1)) 5000 := by
  obtain ⟨h1, h2, h3, h4⟩ := c1_backoff_formula_amended 100 5000 6
    (by decide) (by decide) (by decide) (by decide)
  refine ⟨h1, h2, h3, ?_⟩
  exact h4 none (List.replicate 8 ⟨some (.apiError 503 "s" "" []), false⟩)
    5000 (by decide)

/-- C3 counterexample: the claim says every non-retryable error —
explicitly including serialization errors — is returned after exactly
one send attempt; but a serialization failure makes `Collect` return
before any send attempt, so the attempt count is 0, not 1. -/
theorem c3_serialization_counterexample :
    collect (.error (.other "marshal failure")) false (.ok [])
      (100 * millisecond) (5 * second) none [] =
      ⟨.err (.other "marshal failure"), 0, []⟩ ∧ (0 : Nat) ≠ 1 :=
  ⟨rfl, by decide⟩

/-- C3 (amended): `Collect` performs a retry attempt if and only if
the previous attempt's error is classified retryable by
`isCaredError` (HTTP 429, 408, 502, 503 or 504, or ETIMEDOUT /
ECONNREFUSED) and the caller's context did not fire during the
backoff wait — the attempt count equals the length of the leading run
of such outcomes plus one (capped by the available environment); a
non-retryable send error is returned after exactly that one failing
send attempt with no retry, while serialization and compression
errors are returned before any send attempt (zero attempts). -/
theorem c3_retry_classification_amended :
    (∀ (tmax t : Int) (as : List Attempt),
      (collectAttempts tmax t as).sendAttempts =
        min (leadRetries as + 1) as.length) ∧
    (∀ (tmax t : Int) (e : GoError) (c : Bool) (as : List Attempt),
      isCaredError e = false →
      collectAttempts tmax t (⟨some e, c⟩ :: as) = ⟨.err e, 1, []⟩) ∧
    (∀ (e : GoError) (nc : Bool) (comp : Except GoError (List Nat))
        (initial tmax : Int) (reqErr : Option GoError) (as : List Attempt),
      collect (.error e) nc comp initial tmax reqErr as = ⟨.err e, 0, []⟩) ∧
    (∀ (e : GoError) (d : List Nat) (initial tmax : Int)
        (reqErr : Option GoError) (as : List Attempt),
      collect (.ok d) false (.error e) initial tmax reqErr as =
        ⟨.err e, 0, []⟩) := by
  refine ⟨fun tmax t as => collectAttempts_sendAttempts tmax as t, ?_, ?_, ?_⟩
  · intro tmax t e c as h
    simp [collectAttempts, h]
  · intro e nc comp initial tmax reqErr as
    cases nc <;> rfl
  · intro e d initial tmax reqErr as
    rfl

/-- C3 witness: a concrete HTTP 400 failure is returned after exactly
one send attempt with no retry. -/
theorem c3_retry_classification_amended_witness :
    collectAttempts 5000 100
      [⟨some (.apiError 400 "400 Bad Request" "" []), false⟩, ⟨none, false⟩] =
      ⟨.err (.apiError 400 "400 Bad Request" "" []), 1, []⟩ :=
  c3_retry_classification_amended.2.1 5000 100
    (.apiError 400 "400 Bad Request" "" []) false [⟨none, false⟩] (by decide)

/-- C8: if the caller's context fires while `Collect` waits out the
backoff after the (k+1)-th attempt (every earlier attempt having
failed retryable without cancellation), the call returns the context
error — not the transport error — and performs no further send
attempt: exactly k+1 attempts happen. -/
theorem c8_cancel_during_wait (tmax t : Int) (k : Nat) (as : List Attempt)
    (a : Attempt) (e : GoError)
    (hpre : ∀ i, i < k → ∀ b, as[i]? = some b → retryAfter b = true)
    (hk : as[k]? = some a) (he : a.result = some e)
    (hc : isCaredError e = true) (hd : a.ctxDoneDuringWait = true) :
    (collectLoop tmax none t as).result = .ctxErr ∧
    (collectLoop tmax none t as).sendAttempts = k + 1 := by
  show (collectAttempts tmax t as).result = .ctxErr ∧
    (collectAttempts tmax t as).sendAttempts = k + 1
  revert hpre hk
  induction k generalizing as t with
  | zero =>
    intro hpre hk
    cases as with
    | nil => simp at hk
    | cons b rest =>
      simp at hk
      subst hk
      obtain ⟨res, cd⟩ := b
      simp only at he hd
      subst he
      subst hd
      simp [collectAttempts, hc]
  | succ k ihk =>
    intro hpre hk
    cases as with
    | nil => simp at hk
    | cons b rest =>
      have hb : retryAfter b = true := hpre 0 (by omega) b (by simp)
      obtain ⟨resb, cdb⟩ := b
      cases resb with
      | none => simp [retryAfter] at hb
      | some eb =>
        simp [retryAfter] at hb
        obtain ⟨hcb, hcd⟩ := hb
        subst hcd
        simp only [collectAttempts, hcb, if_true, Bool.false_eq_true, if_false]
        have hrec := ihk (nextInterval tmax t) rest
          (fun i hi c hcc => hpre (i + 1) (by omega) c (by simpa using hcc))
          (by simpa using hk)
        exact ⟨hrec.1, by rw [hrec.2]⟩

/-- C8 witness: a 503 then a 429 whose wait is interrupted by the
caller's context — the run ends in the context error after exactly two
send attempts. -/
theorem c8_cancel_during_wait_witness :
    (collectLoop 5000 none 100
      [⟨some (.apiError 503 "x" "" []), false⟩,
       ⟨some (.apiError 429 "y" "" []), true⟩]).result = .ctxErr ∧
    (collectLoop 5000 none 100
      [⟨some (.apiError 503 "x" "" []), false⟩,
       ⟨some (.apiError 429 "y" "" []), true⟩]).sendAttempts = 1 + 1 :=
  c8_cancel_during_wait 5000 100 1 _ _ (.apiError 429 "y" "" [])
    (by
      intro i hi b hb
      interval_cases i
      simp at hb
      subst hb
      decide)
    rfl rfl (by decide) rfl

/-- C2: evaluation of the batching loop at the failing input.  With
`MaxMessagesPerBatch = 10`: one message arrives, the age timer fires
and seals the first batch, a second message arrives — and because the
`<-timer.C` branch never calls `timer.Reset`, the one-shot timer is
disarmed, so no number of further timer events can ever seal the
second batch: only one batch is ever output, the second message sits
in an open batch, and the timer stays unarmed. -/
theorem c2_age_timer_dead_after_fire :
    (batchRun 10 (initBatchState Nat 0)
      [.msg 1 1, .timerFire 2, .msg 2 3, .timerFire 4, .timerFire 5,
       .timerFire 6]).out.length = 1 ∧
    (batchRun 10 (initBatchState Nat 0)
      [.msg 1 1, .timerFire 2, .msg 2 3, .timerFire 4, .timerFire 5,
       .timerFire 6]).batch.messages = [2] ∧
    (batchRun 10 (initBatchState Nat 0)
      [.msg 1 1, .timerFire 2, .msg 2 3, .timerFire 4, .timerFire 5,
       .timerFire 6]).timerArmed = false := by
  refine ⟨?_, ?_, ?_⟩ <;> decide


theorem batchRun_cons {M : Type} (K : Nat) (s : BatchState M)
    (e : BatchEvent M) (es : List (BatchEvent M)) :
    batchRun K s (e :: es) = batchRun K (batchStep K s e) es := rfl

theorem ceil_div (N K : Nat) (hK : 1 ≤ K) :
    (N + K - 1) / K = N / K + if N % K = 0 then 0 else 1 := by
  have hqr : K * (N / K) + N % K = N := Nat.div_add_mod N K
  have hr : N % K < K := Nat.mod_lt _ (by omega)
  rcases eq_or_ne (N % K) 0 with h | h
  · have he : N + K - 1 = K * (N / K) + (K - 1) := by omega
    rw [he, Nat.mul_add_div (by omega),
      Nat.div_eq_of_lt (show K - 1 < K by omega), h]
    simp
  · have he : N + K - 1 = K * (N / K + 1) + (N % K - 1) := by
      have h2 : K * (N / K + 1) = K * (N / K) + K := by ring
      omega
    rw [he, Nat.mul_add_div (by omega),
      Nat.div_eq_of_lt (show N % K - 1 < K by omega)]
    simp [h]

theorem batchRun_msgs {M : Type} (K : Nat) (hK : 1 ≤ K) :
    ∀ (ms : List M) (s : BatchState M),
      s.done = false → s.batch.messages.length < K →
      ((batchRun K s (ms.map fun m => BatchEvent.msg m 0)).done = false ∧
       (batchRun K s (ms.map fun m => BatchEvent.msg m 0)).batch.messages.length =
         (s.batch.messages.length + ms.length) % K ∧
       (batchRun K s (ms.map fun m => BatchEvent.msg m 0)).out.length =
         s.out.length + (s.batch.messages.length + ms.length) / K ∧
       ((batchRun K s (ms.map fun m => BatchEvent.msg m 0)).out.map
          Messages.messages).flatten ++
         (batchRun K s (ms.map fun m => BatchEvent.msg m 0)).batch.messages =
         (s.out.map Messages.messages).flatten ++ s.batch.messages ++ ms ∧
       (∀ b ∈ (batchRun K s (ms.map fun m => BatchEvent.msg m 0)).out,
          b ∈ s.out ∨ b.messages.length = K)) := by
  intro ms
  induction ms with
  | nil =>
    intro s hdone hlen
    refine ⟨hdone, ?_, ?_, ?_, fun b hb => .inl hb⟩
    · simp [batchRun, Nat.mod_eq_of_lt hlen]
    · simp [batchRun, Nat.div_eq_of_lt hlen]
    · simp [batchRun]
  | cons m rest ih =>
    intro s hdone hlen
    rw [List.map_cons, batchRun_cons]
    set s1 := batchStep K s (.msg m 0) with hs1
    by_cases hseal : K ≤ s.batch.messages.length + 1
    · have f1 : s1.done = false := by
        rw [hs1]; simp [batchStep, hdone, hseal]
      have f2 : s1.batch.messages = [] := by
        rw [hs1]; simp [batchStep, hdone, hseal, mkBatch]
      have f3 : s1.out = s.out ++
          [{ s.batch with messages := s.batch.messages ++ [m] }] := by
        rw [hs1]; simp [batchStep, hdone, hseal]
      obtain ⟨ih1, ih2, ih3, ih4, ih5⟩ := ih s1 f1 (by rw [f2]; simpa using hK)
      refine ⟨ih1, ?_, ?_, ?_, ?_⟩
      · rw [ih2, f2]
        have h1 : s.batch.messages.length + (rest.length + 1) =
            K + rest.length := by omega
        simp only [List.length_nil, List.length_cons, h1, Nat.add_mod_left,
          Nat.zero_add]
      · rw [ih3, f2, f3]
        have h1 : s.batch.messages.length + (rest.length + 1) =
            rest.length + K := by omega
        simp only [List.length_nil, List.length_append, List.length_cons,
          List.length_cons, Nat.zero_add, h1, Nat.add_div_right _ (show 0 < K by omega)]
        omega
      · rw [ih4, f2, f3]
        simp
      · intro b hb
        rcases ih5 b hb with hb2 | hb2
        · rw [f3] at hb2
          simp only [List.mem_append, List.mem_singleton] at hb2
          rcases hb2 with hb3 | hb3
          · exact .inl hb3
          · right
            rw [hb3]
            simp only [List.length_append, List.length_cons, List.length_nil]
            omega
        · exact .inr hb2
    · have f1 : s1.done = false := by
        rw [hs1]; simp [batchStep, hdone, hseal]
      have f2 : s1.batch.messages = s.batch.messages ++ [m] := by
        rw [hs1]; simp [batchStep, hdone, hseal]
      have f3 : s1.out = s.out := by
        rw [hs1]; simp [batchStep, hdone, hseal]
      obtain ⟨ih1, ih2, ih3, ih4, ih5⟩ := ih s1 f1
        (by rw [f2]; simp only [List.length_append, List.length_cons,
          List.length_nil]; omega)
      refine ⟨ih1, ?_, ?_, ?_, ?_⟩
      · rw [ih2, f2]
        have h1 : s.batch.messages.length + 1 + rest.length =
            s.batch.messages.length + (rest.length + 1) := by omega
        simp only [List.length_append, List.length_cons, List.length_nil,
          Nat.zero_add, h1]
      · rw [ih3, f2, f3]
        have h1 : s.batch.messages.length + 1 + rest.length =
            s.batch.messages.length + (rest.length + 1) := by omega
        simp only [List.length_append, List.length_cons, List.length_nil,
          Nat.zero_add, h1]
      · rw [ih4, f2, f3]
        simp
      · intro b hb
        rcases ih5 b hb with hb2 | hb2
        · rw [f3] at hb2
          exact .inl hb2
        · exact .inr hb2

/-- C4: feeding N messages to the batching loop with
`MaxMessagesPerBatch = K >= 1`, no timer fires, and a final shutdown
signal seals exactly the ceiling of N/K batches; concatenating their
message lists in handoff order gives back exactly the input sequence
(no message duplicated, dropped or reordered), every batch before the
last holds exactly K messages, and every sealed batch is non-empty
with at most K messages. -/
theorem c4_size_chunking {M : Type} (K t0 : Nat) (ms : List M) (hK : 1 ≤ K) :
    (((batchRun K (initBatchState M t0)
        ((ms.map fun m => BatchEvent.msg m 0) ++ [.close])).out.map
        Messages.messages).flatten = ms) ∧
    ((batchRun K (initBatchState M t0)
        ((ms.map fun m => BatchEvent.msg m 0) ++ [.close])).out.length =
      (ms.length + K - 1) / K) ∧
    (∀ b ∈ (batchRun K (initBatchState M t0)
        ((ms.map fun m => BatchEvent.msg m 0) ++ [.close])).out.dropLast,
      b.messages.length = K) ∧
    (∀ b ∈ (batchRun K (initBatchState M t0)
        ((ms.map fun m => BatchEvent.msg m 0) ++ [.close])).out,
      0 < b.messages.length ∧ b.messages.length ≤ K) := by
  have hfold : batchRun K (initBatchState M t0)
      ((ms.map fun m => BatchEvent.msg m 0) ++ [.close]) =
      batchStep K (batchRun K (initBatchState M t0)
        (ms.map fun m => BatchEvent.msg m 0)) .close := by
    unfold batchRun
    rw [List.foldl_append]
    rfl
  obtain ⟨g1, g2, g3, g4, g5⟩ := batchRun_msgs K hK ms (initBatchState M t0)
    rfl (by simp [initBatchState, mkBatch]; omega)
  have hinit1 : (initBatchState M t0).batch.messages = [] := rfl
  have hinit2 : (initBatchState M t0).out = ([] : List (Messages M)) := rfl
  rw [hinit1] at g2 g3 g4
  rw [hinit2] at g3 g4 g5
  simp only [List.length_nil, List.map_nil, List.flatten_nil, List.nil_append,
    List.length_cons, Nat.zero_add] at g2 g3 g4 g5
  set s1 := batchRun K (initBatchState M t0) (ms.map fun m => BatchEvent.msg m 0)
    with hs1
  rw [hfold]
  by_cases hne : 0 < s1.batch.messages.length
  · have hstep : batchStep K s1 .close =
        { s1 with out := s1.out ++ [s1.batch], done := true } := by
      simp [batchStep, g1, hne]
    rw [hstep]
    have hmodne : ms.length % K ≠ 0 := by omega
    refine ⟨?_, ?_, ?_, ?_⟩
    · simp only [List.map_append, List.flatten_append, List.map_cons,
        List.map_nil, List.flatten_cons, List.flatten_nil, List.append_nil]
      exact g4
    · simp only [List.length_append, List.length_cons, List.length_nil]
      rw [g3, ceil_div ms.length K hK]
      simp [hmodne]
    · intro b hb
      rw [List.dropLast_concat] at hb
      rcases g5 b hb with hb2 | hb2
      · simp at hb2
      · exact hb2
    · intro b hb
      simp only [List.mem_append, List.mem_singleton] at hb
      rcases hb with hb | hb
      · rcases g5 b hb with hb2 | hb2
        · simp at hb2
        · omega
      · subst hb
        have : s1.batch.messages.length < K := by
          rw [g2]
          exact Nat.mod_lt _ (by omega)
        omega
  · have hempty : s1.batch.messages = [] := by
      cases hmm : s1.batch.messages with
      | nil => rfl
      | cons x xs => rw [hmm] at hne; simp at hne
    have hstep : batchStep K s1 .close = { s1 with done := true } := by
      simp [batchStep, g1, hempty]
    rw [hstep]
    have hmod : ms.length % K = 0 := by
      rw [← g2, hempty]
      rfl
    refine ⟨?_, ?_, ?_, ?_⟩
    · simp only
      rw [hempty, List.append_nil] at g4
      exact g4
    · simp only
      rw [g3, ceil_div ms.length K hK]
      simp [hmod]
    · intro b hb
      simp only at hb
      have hb2 : b ∈ s1.out :=
        List.Sublist.subset (List.dropLast_sublist s1.out) hb
      rcases g5 b hb2 with hb3 | hb3
      · simp at hb3
      · exact hb3
    · intro b hb
      simp only at hb
      rcases g5 b hb with hb2 | hb2
      · simp [initBatchState] at hb2
      · omega


/-- C4 witness: 3 messages, K = 2 — two batches, the input recovered
in order, count = ceiling of 3/2. -/
theorem c4_size_chunking_witness :
    (((batchRun 2 (initBatchState Nat 0)
        (([10, 20, 30].map fun m => BatchEvent.msg m 0) ++ [.close])).out.map
        Messages.messages).flatten = [10, 20, 30]) ∧
    (batchRun 2 (initBatchState Nat 0)
        (([10, 20, 30].map fun m => BatchEvent.msg m 0) ++ [.close])).out.length =
      ([10, 20, 30].length + 2 - 1) / 2 :=
  ⟨(c4_size_chunking 2 0 [10, 20, 30] (by decide)).1,
   (c4_size_chunking 2 0 [10, 20, 30] (by decide)).2.1⟩


/-- C6: the `X-Signature` header set by `doRequestWithContext` on a
request for the collect path equals the base64 encoding of the
HMAC-SHA256, keyed by the access key secret, of the concatenation of
the HTTP method, the request path `/v1/collect`, the access key id,
the nonce, the timestamp and the request body bytes, in that order.
Being an equation between total functions of exactly these inputs, it
also witnesses that the signature is a deterministic pure function of
them. -/
theorem c6_signature_header (conf : Config) (timestamp nonce : String)
    (data : List Nat) :
    List.lookup "X-Signature"
      (doRequestHeaders conf collectMethod collectApi timestamp nonce data) =
    some (base64Encode (hmacSha256 (strBytes conf.accessKeySecret)
      (strBytes collectMethod ++ strBytes collectApi ++
       strBytes conf.accessKeyID ++ strBytes nonce ++
       strBytes timestamp ++ data))) := rfl

/-- C5 counterexample: the claim says every response with a 2xx status
succeeds, but `doRequestWithContext` tests `StatusCode != 200`, so a
204 response is turned into an error. -/
theorem c5_2xx_counterexample :
    handleResponse 204 "204 No Content" (.parsable "" []) =
      some (.apiError 204 "204 No Content" "" []) ∧
    handleResponse 204 "204 No Content" (.parsable "" []) ≠ none := by
  refine ⟨rfl, ?_⟩
  decide

/-- C5 (amended): a send attempt succeeds exactly for status code 200
(not the whole 2xx range); every other response yields an `Error`
carrying the response's status code and status text, with `Message`
and `Errors` parsed from the JSON body when it parses as
`{error, errors}`, and with `Message` set to the raw body text when it
does not. -/
theorem c5_response_classification_amended (sc : Int) (st : String)
    (b : HttpBody) :
    (handleResponse sc st b = none ↔ sc = 200) ∧
    (sc ≠ 200 → ∀ m errs, b = .parsable m errs →
      handleResponse sc st b = some (.apiError sc st m errs)) ∧
    (sc ≠ 200 → ∀ raw, b = .unparsable raw →
      handleResponse sc st b = some (.apiError sc st raw [])) := by
  refine ⟨?_, ?_, ?_⟩
  · by_cases h : sc = 200 <;> simp [handleResponse, h]
  · intro h m errs hb
    subst hb
    simp [handleResponse, h]
  · intro h raw hb
    subst hb
    simp [handleResponse, h]

/-- C5 witness: the amended classification evaluated at a concrete
non-200 response with an unparsable body. -/
theorem c5_response_classification_amended_witness :
    handleResponse 404 "404 Not Found" (.unparsable "oops") =
      some (.apiError 404 "404 Not Found" "oops" []) :=
  (c5_response_classification_amended 404 "404 Not Found"
    (.unparsable "oops")).2.2 (by decide) "oops" rfl

/-- C9 counterexample: the claim says `NewBufferedClient` replaces a
nil `Logger` with `DefaultLogger` on the returned client, but the
defaults applied inside `NewClient` act on the copied `clientConfig`
only — the returned `BufferedClient`'s own conf keeps `Logger = nil`. -/
theorem c9_buffered_logger_counterexample :
    ((NewBufferedClient cfg0).map fun p => p.1.logger) = .ok none ∧
    (none : Option LoggerM) ≠ some LoggerM.defaultLogger := by
  refine ⟨rfl, ?_⟩
  decide

/-- C9 (amended): `NewClient` replaces each zero-valued option of its
config with the fixed default (Logger = DefaultLogger,
RetryTimeIntervalInitial = 100ms, RetryTimeIntervalMax = 5s,
Encoding = json, CompressionAlgo = gzip) and keeps non-zero values;
`NewBufferedClient` applies the batching defaults
(MaxMessagesPerBatch = 2000, MaxDurationPerBatch = 50ms,
MaxConcurrency = 10) to the returned client's own conf and the five
client defaults to its embedded `Client`'s conf only — the outer conf
keeps the caller's zero values for those five options. -/
theorem c9_defaults_amended :
    (∀ c c', NewClient c = .ok c' → c' = applyClientDefaults c) ∧
    (∀ b bc cc, NewBufferedClient b = .ok (bc, cc) →
      bc = applyBatchDefaults b ∧ cc = applyClientDefaults (toClientConfig b)) :=
  ⟨fun _ _ h => (NewClient_ok h).1, fun _ _ _ h => NewBufferedClient_ok h⟩

/-- C9 witness: the defaulting evaluated on a concrete all-zero
configuration. -/
theorem c9_defaults_amended_witness :
    ({ cfg0 with
        maxMessagesPerBatch := 2000,
        maxDurationPerBatch := 50 * millisecond,
        maxConcurrency := 10 }
      = applyBatchDefaults cfg0) ∧
    ({ endpoint := "e", accessKeyID := "", accessKeySecret := "",
        clientId := "", encoding := "json", noCompression := false,
        compressionAlgo := "gzip",
        retryTimeIntervalInitial := 100 * millisecond,
        retryTimeIntervalMax := 5 * second,
        logger := some LoggerM.defaultLogger : Config }
      = applyClientDefaults (toClientConfig cfg0)) :=
  c9_defaults_amended.2 cfg0 _ _ rfl

/-- C10: every config accepted by `NewClient` has encoding `json` or
`msgpack` and compression algorithm `gzip`; consequently the
`unsupported compression format` branch of the `encoding` helper is
unreachable for such a client — the helper always returns one of the
two marshaller outcomes. -/
theorem c10_encoding_validated (c c' : Config) (h : NewClient c = .ok c') :
    (c'.encoding = "json" ∨ c'.encoding = "msgpack") ∧
    c'.compressionAlgo = "gzip" ∧
    ∀ j m : Except GoError (List Nat),
      encodingFn c'.encoding j m = j ∨ encodingFn c'.encoding j m = m := by
  obtain ⟨-, henc, hca⟩ := NewClient_ok h
  refine ⟨henc, hca, fun j m => ?_⟩
  rcases henc with h1 | h1
  · left
    rw [h1]
    cases j <;> rfl
  · right
    rw [h1]
    cases m <;> rfl

/-- C10 witness: the validation evaluated on a concrete accepted
configuration. -/
theorem c10_encoding_validated_witness :
    ((applyClientDefaults (toClientConfig cfg0)).encoding = "json" ∨
     (applyClientDefaults (toClientConfig cfg0)).encoding = "msgpack") ∧
    (applyClientDefaults (toClientConfig cfg0)).compressionAlgo = "gzip" ∧
    (encodingFn (applyClientDefaults (toClientConfig cfg0)).encoding
        (.ok [1]) (.ok [2]) = .ok [1] ∨
     encodingFn (applyClientDefaults (toClientConfig cfg0)).encoding
        (.ok [1]) (.ok [2]) = .ok [2]) := by
  obtain ⟨h1, h2, h3⟩ := c10_encoding_validated (toClientConfig cfg0) _ rfl
  exact ⟨h1, h2, h3 (.ok [1]) (.ok [2])⟩


theorem digitChar_toNat : ∀ d, d < 10 → (digitChar d).toNat = 48 + d := by decide

theorem digitChar_ne_dash {d : Nat} (h : d < 10) : digitChar d ≠ '-' := by
  intro he
  have h1 := digitChar_toNat d h
  rw [he] at h1
  have h2 : ('-').toNat = 45 := rfl
  omega

theorem natDigits_digit : ∀ (f n : Nat), ∀ c ∈ natDigits f n,
    ∃ d, d < 10 ∧ c = digitChar d := by
  intro f
  induction f with
  | zero =>
    intro n c hc
    simp [natDigits] at hc
  | succ f ih =>
    intro n c hc
    by_cases h : n < 10
    · simp [natDigits, h] at hc
      exact ⟨n, h, hc⟩
    · simp only [natDigits, h, if_false] at hc
      rcases List.mem_append.mp hc with hc2 | hc2
      · exact ih (n / 10) c hc2
      · simp at hc2
        exact ⟨n % 10, Nat.mod_lt _ (by omega), hc2⟩

theorem natDigits_no_dash (f n : Nat) : '-' ∉ natDigits f n := by
  intro hmem
  obtain ⟨d, hd, he⟩ := natDigits_digit f n '-' hmem
  exact digitChar_ne_dash hd he.symm

theorem parseDec_append_one (cs : List Char) (c : Char) :
    parseDec (cs ++ [c]) = parseDec cs * 10 + (c.toNat - 48) := by
  unfold parseDec
  rw [List.foldl_append]
  rfl

theorem parseDec_natDigits : ∀ (f n : Nat), n < f →
    parseDec (natDigits f n) = n := by
  intro f
  induction f with
  | zero =>
    intro n h
    omega
  | succ f ih =>
    intro n h
    by_cases h10 : n < 10
    · simp only [natDigits, h10, if_true]
      show 0 * 10 + ((digitChar n).toNat - 48) = n
      rw [digitChar_toNat n h10]
      omega
    · simp only [natDigits, h10, if_false]
      rw [parseDec_append_one, ih (n / 10) (by omega),
        digitChar_toNat (n % 10) (Nat.mod_lt _ (by omega))]
      omega

theorem natDec_inj {a b : Nat} (h : natDec a = natDec b) : a = b := by
  have ha := parseDec_natDigits (a + 1) a (by omega)
  have hb := parseDec_natDigits (b + 1) b (by omega)
  unfold natDec at h
  have hll : natDigits (a + 1) a = natDigits (b + 1) b :=
    congrArg String.data h
  rw [← ha, ← hb, hll]

theorem append_dash_inj : ∀ (u1 : List Char) {v1 : List Char} (u2 : List Char)
    {v2 : List Char}, '-' ∉ u1 → '-' ∉ u2 →
    u1 ++ '-' :: v1 = u2 ++ '-' :: v2 → u1 = u2 ∧ v1 = v2 := by
  intro u1
  induction u1 with
  | nil =>
    intro v1 u2 v2 h1 h2 he
    cases u2 with
    | nil => simpa using he
    | cons x xs =>
      simp only [List.nil_append, List.cons_append, List.cons.injEq] at he
      obtain ⟨rfl, he2⟩ := he
      simp at h2
  | cons a u ih =>
    intro v1 u2 v2 h1 h2 he
    cases u2 with
    | nil =>
      simp only [List.cons_append, List.nil_append, List.cons.injEq] at he
      obtain ⟨rfl, he2⟩ := he
      simp at h1
    | cons b u2t =>
      simp only [List.cons_append, List.cons.injEq] at he
      obtain ⟨rfl, he2⟩ := he
      simp only [List.mem_cons, not_or] at h1 h2
      have hr := ih u2t h1.2 h2.2 he2
      exact ⟨by rw [hr.1], hr.2⟩

theorem newBatchId_inj {t1 c1 t2 c2 : Nat}
    (h : newBatchId t1 c1 = newBatchId t2 c2) : t1 = t2 ∧ c1 = c2 := by
  unfold newBatchId natDec at h
  have hdata := congrArg String.data h
  simp only [String.data_append] at hdata
  have hshape : ∀ (x y : Nat),
      ("b-").data ++ natDigits (x + 1) x ++ ("-").data ++ natDigits (y + 1) y =
      'b' :: '-' :: (natDigits (x + 1) x ++ '-' :: natDigits (y + 1) y) := by
    intro x y
    simp
  rw [hshape, hshape] at hdata
  simp only [List.cons.injEq, true_and] at hdata
  obtain ⟨hts, hcs⟩ := append_dash_inj (natDigits (t1 + 1) t1)
    (natDigits (t2 + 1) t2) (natDigits_no_dash _ _) (natDigits_no_dash _ _)
    hdata
  constructor
  · have := congrArg parseDec hts
    rwa [parseDec_natDigits (t1 + 1) t1 (by omega),
      parseDec_natDigits (t2 + 1) t2 (by omega)] at this
  · have := congrArg parseDec hcs
    rwa [parseDec_natDigits (c1 + 1) c1 (by omega),
      parseDec_natDigits (c2 + 1) c2 (by omega)] at this

theorem batchStep_created {M : Type} (K : Nat) (s : BatchState M)
    (e : BatchEvent M)
    (h1 : s.created.map Prod.snd = List.range s.nextBatchID)
    (h2 : s.done = false →
      s.out.map Messages.batchId ++ [s.batch.batchId] =
        s.created.map fun p => newBatchId p.1 p.2) :
    ((batchStep K s e).created.map Prod.snd =
      List.range (batchStep K s e).nextBatchID) ∧
    ((batchStep K s e).done = false →
      (batchStep K s e).out.map Messages.batchId ++
        [(batchStep K s e).batch.batchId] =
        (batchStep K s e).created.map fun p => newBatchId p.1 p.2) := by
  by_cases hdone : s.done = true
  · simp only [batchStep, hdone, if_true]
    exact ⟨h1, fun h => by simp at h⟩
  · have hdf : s.done = false := by
      cases hd : s.done
      · rfl
      · exact absurd hd hdone
    have hids := h2 hdf
    cases e with
    | msg m now =>
      by_cases hseal : K ≤ s.batch.messages.length + 1
      · have hstep : batchStep K s (.msg m now) =
            { batch := mkBatch now s.nextBatchID,
              nextBatchID := s.nextBatchID + 1, timerArmed := true,
              out := s.out ++
                [{ s.batch with messages := s.batch.messages ++ [m] }],
              done := false,
              created := s.created ++ [(now, s.nextBatchID)] } := by
          simp [batchStep, hdf, hseal]
        rw [hstep]
        refine ⟨?_, fun _ => ?_⟩
        · simp only [List.map_append, List.map_cons, List.map_nil, h1,
            List.range_succ]
        · simp only [List.map_append, List.map_cons, List.map_nil]
          rw [← hids]
          simp [mkBatch]
      · have hstep : batchStep K s (.msg m now) =
            { s with batch :=
              { s.batch with messages := s.batch.messages ++ [m] } } := by
          simp [batchStep, hdf, hseal]
        rw [hstep]
        exact ⟨h1, fun _ => hids⟩
    | timerFire now =>
      by_cases harm : s.timerArmed = true
      · by_cases hne : 0 < s.batch.messages.length
        · have hstep : batchStep K s (.timerFire now) =
              { batch := mkBatch now s.nextBatchID,
                nextBatchID := s.nextBatchID + 1, timerArmed := false,
                out := s.out ++ [s.batch], done := false,
                created := s.created ++ [(now, s.nextBatchID)] } := by
            simp [batchStep, hdf, harm, hne]
          rw [hstep]
          refine ⟨?_, fun _ => ?_⟩
          · simp only [List.map_append, List.map_cons, List.map_nil, h1,
              List.range_succ]
          · simp only [List.map_append, List.map_cons, List.map_nil]
            rw [← hids]
            simp [mkBatch]
        · have hstep : batchStep K s (.timerFire now) =
              { s with timerArmed := false } := by
            simp only [batchStep, hdf, Bool.false_eq_true, if_false, harm,
              if_true, hne]
          rw [hstep]
          exact ⟨h1, fun _ => hids⟩
      · have hstep : batchStep K s (.timerFire now) = s := by
          simp [batchStep, hdf, harm]
        rw [hstep]
        exact ⟨h1, h2⟩
    | close =>
      by_cases hne : 0 < s.batch.messages.length
      · have hstep : batchStep K s .close =
            { s with out := s.out ++ [s.batch], done := true } := by
          simp [batchStep, hdf, hne]
        rw [hstep]
        exact ⟨h1, fun h => by simp at h⟩
      · have hstep : batchStep K s .close = { s with done := true } := by
          simp [batchStep, hdf, hne]
        rw [hstep]
        exact ⟨h1, fun h => by simp at h⟩

theorem batchRun_created {M : Type} (K : Nat) :
    ∀ (events : List (BatchEvent M)) (s : BatchState M),
      s.created.map Prod.snd = List.range s.nextBatchID →
      (s.done = false →
        s.out.map Messages.batchId ++ [s.batch.batchId] =
          s.created.map fun p => newBatchId p.1 p.2) →
      ((batchRun K s events).created.map Prod.snd =
        List.range (batchRun K s events).nextBatchID) ∧
      ((batchRun K s events).done = false →
        (batchRun K s events).out.map Messages.batchId ++
          [(batchRun K s events).batch.batchId] =
          (batchRun K s events).created.map fun p => newBatchId p.1 p.2) := by
  intro events
  induction events with
  | nil =>
    intro s h1 h2
    exact ⟨h1, h2⟩
  | cons e rest ih =>
    intro s h1 h2
    rw [batchRun_cons]
    obtain ⟨g1, g2⟩ := batchStep_created K s e h1 h2
    exact ih (batchStep K s e) g1 g2

set_option maxRecDepth 8000 in
/-- C7 counterexample: the claim says batchId values are strictly
increasing in issuance order; with eleven size-triggered seals in the
same millisecond the 10th and 11th issued ids are "b-5-9" and
"b-5-10", and "b-5-9" < "b-5-10" is false in the string order (the
counter is rendered in decimal, so "10" sorts before "9"). -/
theorem c7_string_order_counterexample :
    ((batchRun 1 (initBatchState Nat 5)
        (List.replicate 11 (BatchEvent.msg 0 5))).out.map Messages.batchId)[9]? =
      some "b-5-9" ∧
    ((batchRun 1 (initBatchState Nat 5)
        (List.replicate 11 (BatchEvent.msg 0 5))).out.map Messages.batchId)[10]? =
      some "b-5-10" ∧
    ¬ (("b-5-9" : String) < "b-5-10") := by
  refine ⟨by decide, by decide, ?_⟩
  rw [String.lt_iff_toList_lt]
  decide

/-- C7 (amended): every batch id issued by one batching loop is
`newBatchId nowMilli counter` with the per-client counter strictly
increasing in issuance order (the ghost `created` trace carries
exactly the counters `0, 1, 2, ...`), so the id strings are pairwise
distinct — but they are not strictly increasing as strings.  While the
loop is live, the sealed batches' ids followed by the open batch's id
are exactly the issued ids in issuance order. -/
theorem c7_batch_ids_distinct_amended {M : Type} (K t0 : Nat)
    (events : List (BatchEvent M)) :
    (((batchRun K (initBatchState M t0) events).created.map
      fun p => newBatchId p.1 p.2).Nodup) ∧
    (((batchRun K (initBatchState M t0) events).created.map Prod.snd).Pairwise
      (· < ·)) ∧
    ((batchRun K (initBatchState M t0) events).done = false →
      (batchRun K (initBatchState M t0) events).out.map Messages.batchId ++
        [(batchRun K (initBatchState M t0) events).batch.batchId] =
        (batchRun K (initBatchState M t0) events).created.map
          fun p => newBatchId p.1 p.2) := by
  obtain ⟨h1, h2⟩ := batchRun_created K events (initBatchState M t0)
    (by
      simp only [initBatchState, List.map_cons, List.map_nil]
      rw [List.range_succ]
      rfl)
    (by intro _; simp [initBatchState, mkBatch])
  refine ⟨?_, ?_, h2⟩
  · have hnd : ((batchRun K (initBatchState M t0) events).created.map
        Prod.snd).Nodup := by
      rw [h1]
      exact List.nodup_range _
    have hcreated := List.Nodup.of_map _ hnd
    have hinj : Function.Injective (fun p : Nat × Nat => newBatchId p.1 p.2) := by
      intro p q hpq
      obtain ⟨ht, hc⟩ := newBatchId_inj hpq
      exact Prod.ext ht hc
    exact hcreated.map hinj
  · rw [h1]
    exact List.pairwise_lt_range _

/-- C7 witness: one client, one enqueued message — the issued ids are
pairwise distinct, the counters increase, and the live-loop id listing
holds. -/
theorem c7_batch_ids_distinct_amended_witness :
    (((batchRun 2 (initBatchState Nat 5) [.msg 7 5]).created.map
      fun p => newBatchId p.1 p.2).Nodup) ∧
    (((batchRun 2 (initBatchState Nat 5) [.msg 7 5]).created.map
      Prod.snd).Pairwise (· < ·)) ∧
    ((batchRun 2 (initBatchState Nat 5) [.msg 7 5]).out.map Messages.batchId ++
      [(batchRun 2 (initBatchState Nat 5) [.msg 7 5]).batch.batchId] =
      (batchRun 2 (initBatchState Nat 5) [.msg 7 5]).created.map
        fun p => newBatchId p.1 p.2) := by
  obtain ⟨h1, h2, h3⟩ :=
    c7_batch_ids_distinct_amended 2 5 ([.msg 7 5] : List (BatchEvent Nat))
  exact ⟨h1, h2, h3 rfl⟩


end Ingest
